import Mathlib

/-!
Formal model of the `better_any` / `better_typeid` crates: shape-tag
derivation, the identity capability (`Tid`), and the downcast protocol.
-/

/-- A validity scope (Rust lifetime): the unlimited scope `'static` or a
bounded region `'sn` identified by an index. -/
inductive Lt where
  | static
  | scope (n : Nat)
deriving DecidableEq

/-- Identity of a fresh marker struct used as a `Static` substitute type.
`user d kinds` is the marker emitted by the derive macro for user
declaration number `d` (a declaration also fixes which of its type
parameters are pinned by an explicit `'static` bound, recorded in `kinds`:
`true` = pinned).  The remaining constructors are the `__TypeIdGenerator`
markers of the library's own `tid!` invocations in better_any's lib.rs:
for `&'a T`, `&'a mut T` and `TypeIdAdjuster<T>`. -/
inductive MId where
  | user (d : Nat) (kinds : List Bool)
  | refM
  | refMutM
  | adjM
deriving DecidableEq

/-- A `'static` Rust type, the domain of `std::any::TypeId::of`.
`prim n` is a nominal type without type parameters (e.g. `i32`, `S`,
`F<'static>`); `marker m args` is a generated marker struct applied to
static argument types; `adjuster s` is `TypeIdAdjuster<s>` (used literally
by better_typeid's `adjust_id`); `sref`/`srefMut` are `&'static s` /
`&'static mut s` (better_typeid's `Static` for references); `sopt s` is
`Option<s>` (used by `AnyExt::downcast_move`). -/
inductive STy where
  | prim (n : Nat)
  | marker (m : MId) (args : List STy)
  | adjuster (s : STy)
  | sref (s : STy)
  | srefMut (s : STy)
  | sopt (s : STy)

/-- A scoped (`Tid`-capable) type instantiation.
`named n lt` is a nominal type with no type parameters registered with
`tid!(S)` / `tid!(F<'a>)` (for a type with no lifetime the only
instantiation is `lt = .static`); its `Static` is `prim n`.
`app d kinds lt args` is user generic declaration `d` instantiated at
lifetime `lt` with type arguments `args` (`kinds` records the declared
parameter kinds, `true` = pinned by `'static`).  `ref`/`refMut` are
`&'lt s` / `&'lt mut s` with `s : 'static`.  `adjusted s` is
`TypeIdAdjuster<s>` as registered by better_any.  `pinned s` is a
pinned-position argument slot holding the static type `s` unchanged. -/
inductive Ty where
  | named (n : Nat) (lt : Lt)
  | app (d : Nat) (kinds : List Bool) (lt : Lt) (args : List Ty)
  | ref (lt : Lt) (s : STy)
  | refMut (lt : Lt) (s : STy)
  | adjusted (s : STy)
  | pinned (s : STy)

mutual

/-- Structural equality test on static types (models `TypeId` equality). -/
def STy.beq : STy → STy → Bool
  | .prim n, .prim m => n == m
  | .marker m1 as1, .marker m2 as2 => m1 == m2 && STy.beqList as1 as2
  | .adjuster a, .adjuster b => STy.beq a b
  | .sref a, .sref b => STy.beq a b
  | .srefMut a, .srefMut b => STy.beq a b
  | .sopt a, .sopt b => STy.beq a b
  | _, _ => false

/-- Pointwise equality test on lists of static types. -/
def STy.beqList : List STy → List STy → Bool
  | [], [] => true
  | a :: as, b :: bs => STy.beq a b && STy.beqList as bs
  | _, _ => false

end

/-- Structural induction principle for the nested inductive `Ty`. -/
theorem Ty.indTy {motive : Ty → Prop}
    (hnamed : ∀ n lt, motive (.named n lt))
    (happ : ∀ d kinds lt args, (∀ a ∈ args, motive a) → motive (.app d kinds lt args))
    (href : ∀ lt s, motive (.ref lt s))
    (hrefMut : ∀ lt s, motive (.refMut lt s))
    (hadj : ∀ s, motive (.adjusted s))
    (hpin : ∀ s, motive (.pinned s)) :
    ∀ t, motive t := by
  have key : ∀ N t, sizeOf t ≤ N → motive t := by
    intro N
    induction N with
    | zero => intro t h; cases t <;> simp at h
    | succ n ih =>
      intro t h
      cases t with
      | named k lt => exact hnamed k lt
      | app d kinds lt args =>
        refine happ d kinds lt args fun a ha => ih a ?_
        have h1 := List.sizeOf_lt_of_mem ha
        have h2 : sizeOf (Ty.app d kinds lt args) =
            1 + sizeOf d + sizeOf kinds + sizeOf lt + sizeOf args := by simp
        omega
      | ref lt s => exact href lt s
      | refMut lt s => exact hrefMut lt s
      | adjusted s => exact hadj s
      | pinned s => exact hpin s
  exact fun t => key (sizeOf t) t (Nat.le_refl _)

/-- The equality tests on static types and their lists decide propositional
equality, proved by strong induction on size. -/
theorem STy.beqSTy_iff_aux : ∀ N : Nat,
    (∀ a b : STy, sizeOf a ≤ N → (STy.beq a b = true ↔ a = b)) ∧
    (∀ as bs : List STy, sizeOf as ≤ N → (STy.beqList as bs = true ↔ as = bs)) := by
  intro N
  induction N with
  | zero =>
    constructor
    · intro a b h; cases a <;> simp at h
    · intro as bs h; cases as <;> simp at h
  | succ n ih =>
    constructor
    · intro a b ha
      cases a with
      | prim k => cases b <;> simp [STy.beq]
      | marker m args =>
        have hargs : sizeOf args ≤ n := by
          have h2 : sizeOf (STy.marker m args) = 1 + sizeOf m + sizeOf args := by simp
          omega
        cases b with
        | marker m2 bs =>
          simp only [STy.beq, Bool.and_eq_true, beq_iff_eq, STy.marker.injEq]
          rw [ih.2 args bs hargs]
        | prim k => simp [STy.beq]
        | adjuster s => simp [STy.beq]
        | sref s => simp [STy.beq]
        | srefMut s => simp [STy.beq]
        | sopt s => simp [STy.beq]
      | adjuster s =>
        have hs : sizeOf s ≤ n := by
          have h2 : sizeOf (STy.adjuster s) = 1 + sizeOf s := by simp
          omega
        cases b <;> simp [STy.beq]
        exact ih.1 s _ hs
      | sref s =>
        have hs : sizeOf s ≤ n := by
          have h2 : sizeOf (STy.sref s) = 1 + sizeOf s := by simp
          omega
        cases b <;> simp [STy.beq]
        exact ih.1 s _ hs
      | srefMut s =>
        have hs : sizeOf s ≤ n := by
          have h2 : sizeOf (STy.srefMut s) = 1 + sizeOf s := by simp
          omega
        cases b <;> simp [STy.beq]
        exact ih.1 s _ hs
      | sopt s =>
        have hs : sizeOf s ≤ n := by
          have h2 : sizeOf (STy.sopt s) = 1 + sizeOf s := by simp
          omega
        cases b <;> simp [STy.beq]
        exact ih.1 s _ hs
    · intro as bs h
      cases as with
      | nil => cases bs <;> simp [STy.beqList]
      | cons x xs =>
        have hx : sizeOf x ≤ n := by
          have h2 : sizeOf (x :: xs) = 1 + sizeOf x + sizeOf xs := by simp
          omega
        have hxs : sizeOf xs ≤ n := by
          have h2 : sizeOf (x :: xs) = 1 + sizeOf x + sizeOf xs := by simp
          omega
        cases bs with
        | nil => simp [STy.beqList]
        | cons y ys =>
          simp only [STy.beqList, Bool.and_eq_true, List.cons.injEq]
          rw [ih.1 x y hx, ih.2 xs ys hxs]

/-- The equality test on static types decides propositional equality. -/
theorem STy.beqSTy_iff (a b : STy) : STy.beq a b = true ↔ a = b :=
  (STy.beqSTy_iff_aux (sizeOf a)).1 a b (Nat.le_refl _)

instance STy.instDecEq : DecidableEq STy :=
  fun a b => decidable_of_iff (STy.beq a b = true) (STy.beqSTy_iff a b)

mutual

/-- Structural equality test on scoped types. -/
def Ty.beq : Ty → Ty → Bool
  | .named n l, .named m l2 => n == m && l == l2
  | .app d k l as, .app d2 k2 l2 bs => d == d2 && k == k2 && l == l2 && Ty.beqList as bs
  | .ref l s, .ref l2 s2 => l == l2 && s == s2
  | .refMut l s, .refMut l2 s2 => l == l2 && s == s2
  | .adjusted s, .adjusted s2 => s == s2
  | .pinned s, .pinned s2 => s == s2
  | _, _ => false

/-- Pointwise equality test on lists of scoped types. -/
def Ty.beqList : List Ty → List Ty → Bool
  | [], [] => true
  | a :: as, b :: bs => Ty.beq a b && Ty.beqList as bs
  | _, _ => false

end

/-- The equality tests on scoped types and their lists decide propositional
equality, proved by strong induction on size. -/
theorem Ty.beqTy_iff_aux : ∀ N : Nat,
    (∀ a b : Ty, sizeOf a ≤ N → (Ty.beq a b = true ↔ a = b)) ∧
    (∀ as bs : List Ty, sizeOf as ≤ N → (Ty.beqList as bs = true ↔ as = bs)) := by
  intro N
  induction N with
  | zero =>
    constructor
    · intro a b h; cases a <;> simp at h
    · intro as bs h; cases as <;> simp at h
  | succ n ih =>
    constructor
    · intro a b ha
      cases a with
      | named k l => cases b <;> simp [Ty.beq, and_assoc]
      | app d kinds l args =>
        have hargs : sizeOf args ≤ n := by
          have h2 : sizeOf (Ty.app d kinds l args) =
              1 + sizeOf d + sizeOf kinds + sizeOf l + sizeOf args := by simp
          omega
        cases b with
        | app d2 k2 l2 bs =>
          simp only [Ty.beq, Bool.and_eq_true, beq_iff_eq, Ty.app.injEq, and_assoc]
          rw [ih.2 args bs hargs]
        | named k l2 => simp [Ty.beq]
        | ref l2 s => simp [Ty.beq]
        | refMut l2 s => simp [Ty.beq]
        | adjusted s => simp [Ty.beq]
        | pinned s => simp [Ty.beq]
      | ref l s => cases b <;> simp [Ty.beq]
      | refMut l s => cases b <;> simp [Ty.beq]
      | adjusted s => cases b <;> simp [Ty.beq]
      | pinned s => cases b <;> simp [Ty.beq]
    · intro as bs h
      cases as with
      | nil => cases bs <;> simp [Ty.beqList]
      | cons x xs =>
        have hx : sizeOf x ≤ n := by
          have h2 : sizeOf (x :: xs) = 1 + sizeOf x + sizeOf xs := by simp
          omega
        have hxs : sizeOf xs ≤ n := by
          have h2 : sizeOf (x :: xs) = 1 + sizeOf x + sizeOf xs := by simp
          omega
        cases bs with
        | nil => simp [Ty.beqList]
        | cons y ys =>
          simp only [Ty.beqList, Bool.and_eq_true, List.cons.injEq]
          rw [ih.1 x y hx, ih.2 xs ys hxs]

/-- The equality test on scoped types decides propositional equality. -/
theorem Ty.beqTy_iff (a b : Ty) : Ty.beq a b = true ↔ a = b :=
  (Ty.beqTy_iff_aux (sizeOf a)).1 a b (Nat.le_refl _)

instance Ty.instDecEq : DecidableEq Ty :=
  fun a b => decidable_of_iff (Ty.beq a b = true) (Ty.beqTy_iff a b)

/-- The host RTTI tag.  `std::any::TypeId` is an opaque identifier that is
equal for two `'static` types iff the types are equal, so we model it as
the static type itself; `typeIdOf` models `TypeId::of::<T>()` and the host
injectivity guarantee holds definitionally. -/
abbrev TypeId := STy

/-- Models `std::any::TypeId::of::<T>()`. -/
def typeIdOf (s : STy) : TypeId := s

namespace BetterAny

mutual

/-- The `Static` substitute type of a scoped type in better_any, as
produced by the `tid!` macro arms and the derive macro: a no-generics type
is its own `Static`; a generic declaration gets its fresh marker applied
to the parameters' images (derive `create_impl`: scope-bound parameters
contribute `X::Static`, `'static`-bound ones contribute `X` unchanged);
`&'a T` / `&'a mut T` / `TypeIdAdjuster<T>` get the markers of their
`tid!` blocks with the pinned `T` unchanged. -/
def staticOf : Ty → STy
  | .named n _ => .prim n
  | .app d kinds _ args => .marker (.user d kinds) (staticList args)
  | .ref _ s => .marker .refM [s]
  | .refMut _ s => .marker .refMutM [s]
  | .adjusted s => .marker .adjM [s]
  | .pinned s => s

/-- Pointwise `Static` images of a generic argument list. -/
def staticList : List Ty → List STy
  | [] => []
  | t :: ts => staticOf t :: staticList ts

end

end BetterAny

mutual

/-- Scope erasure: replace every validity-scope parameter of a scoped type
by the unlimited scope.  Two scoped types are "the same type up to
substitution of the lifetime parameter" exactly when their erasures are
equal. -/
def Ty.erase : Ty → Ty
  | .named n _ => .named n .static
  | .app d kinds _ args => .app d kinds .static (Ty.eraseList args)
  | .ref _ s => .ref .static s
  | .refMut _ s => .refMut .static s
  | .adjusted s => .adjusted s
  | .pinned s => .pinned s

/-- Pointwise scope erasure of a generic argument list. -/
def Ty.eraseList : List Ty → List Ty
  | [] => []
  | t :: ts => Ty.erase t :: Ty.eraseList ts

end

mutual

/-- Well-formedness of a scoped type: every generic instantiation supplies
its declaration's parameters in kind (a `'static`-pinned position receives
a pinned static type, a scope-bound position receives a well-formed scoped
type), which Rust's type and trait system enforces statically.  A bare
`pinned` slot is not itself a scoped type. -/
def Ty.wf : Ty → Bool
  | .named _ _ => true
  | .app _ kinds _ args => Ty.wfArgs kinds args
  | .ref _ _ => true
  | .refMut _ _ => true
  | .adjusted _ => true
  | .pinned _ => false

/-- Argument lists match the declared parameter kinds (`true` = pinned). -/
def Ty.wfArgs : List Bool → List Ty → Bool
  | [], [] => true
  | true :: ks, .pinned _ :: as => Ty.wfArgs ks as
  | false :: ks, a :: as => Ty.wf a && Ty.wfArgs ks as
  | _, _ => false

end

namespace BetterAny

/-- Models better_any's `adjust_id` (lib.rs 293-296): it returns
`TypeId::of::<T>()` unchanged — the identity adjustment. -/
def adjust_id (s : STy) : TypeId := typeIdOf s

/-- Models `Tid::self_id` of a value whose dynamic type is `t`, via the
blanket `impl Tid for T: TidAble` (lib.rs 278-291): `adjust_id::<T::Static>()`. -/
def self_id (t : Ty) : TypeId := adjust_id (staticOf t)

/-- Models `T::id()` via the same blanket impl: `adjust_id::<T::Static>()`. -/
def type_id (t : Ty) : TypeId := adjust_id (staticOf t)

/-- Models `TidExt::is::<T>()` (lib.rs 120-122) on a value of dynamic type
`selfTy`: `self.self_id() == T::id()`. -/
def is (selfTy target : Ty) : Bool := self_id selfTy == type_id target

end BetterAny

/-- A borrowed handle (`&'b X` / `&'b mut X`, possibly a trait object):
the pointee's dynamic type, its address, and the region index of the
borrow's validity scope. -/
structure Ref where
  ty : Ty
  addr : Nat
  scope : Nat
deriving DecidableEq

/-- An owning handle (a value, or the pointee of `Box`/`Rc`/`Arc`): the
pointee's dynamic type and its address (the value's identity). -/
structure Value where
  ty : Ty
  addr : Nat
deriving DecidableEq

/-- A borrowed handle to a host-RTTI (`Any`) value: its static type,
address and borrow scope. -/
structure ARef where
  sty : STy
  addr : Nat
  scope : Nat
deriving DecidableEq

/-- An owned host-RTTI (`Any`) value: its static type and address. -/
structure AnyVal where
  sty : STy
  addr : Nat
deriving DecidableEq

namespace BetterAny

/-- Models `TidExt::downcast_ref` (lib.rs 125-133): if `self.is::<T>()`,
reinterpret the same reference (same pointee address, same borrow scope)
as `&T`, else `None`. -/
def downcast_ref (r : Ref) (T : Ty) : Option Ref :=
  if is r.ty T then some ⟨T, r.addr, r.scope⟩ else none

/-- Models `TidExt::downcast_mut` (lib.rs 136-143), identically. -/
def downcast_mut (r : Ref) (T : Ty) : Option Ref :=
  if is r.ty T then some ⟨T, r.addr, r.scope⟩ else none

/-- Models `TidExt::downcast_rc` (lib.rs 146-152): on a tag match the `Rc`
is reinterpreted around the same pointee; otherwise `Err(self)` returns the
original handle. -/
def downcast_rc (h : Value) (T : Ty) : Except Value Value :=
  if is h.ty T then .ok ⟨T, h.addr⟩ else .error h

/-- Models `TidExt::downcast_arc` (lib.rs 155-161). -/
def downcast_arc (h : Value) (T : Ty) : Except Value Value :=
  if is h.ty T then .ok ⟨T, h.addr⟩ else .error h

/-- Models `TidExt::downcast_box` (lib.rs 164-170). -/
def downcast_box (h : Value) (T : Ty) : Except Value Value :=
  if is h.ty T then .ok ⟨T, h.addr⟩ else .error h

/-- Models `TidExt::downcast_move` (lib.rs 174-184): on a tag match the
value is bit-reinterpreted as `T` (`transmute_copy` of the not-dropped
source); otherwise the function returns `None` and the source, still owned
by the function, is dropped. -/
def downcast_move (x : Value) (T : Ty) : Option Value :=
  if is x.ty T then some ⟨T, x.addr⟩ else none

/-- Models `AnyExt::downcast_move` (lib.rs 244-253): the value is wrapped
in `Option`, coerced to `&mut dyn Any` and downcast to `Option<T>`, so the
tag check is `TypeId::of::<Option<Self>>() == TypeId::of::<Option<T>>()`;
on success the value is taken out of the option, on failure `None` is
returned and the input is dropped. -/
def AnyExt.downcast_move (x : AnyVal) (T : STy) : Option AnyVal :=
  if typeIdOf (STy.sopt x.sty) == typeIdOf (STy.sopt T) then some ⟨T, x.addr⟩ else none

/-- Models `From<&'b T> for &'b dyn Tid<'a>` (lib.rs 314-319): the
reference is cast to `&TypeIdAdjuster<T>` (a transparent wrapper), so the
handle's dynamic type becomes `TypeIdAdjuster<T>`; address and borrow
scope are unchanged. -/
def fromAnyRef (s : STy) (addr scope : Nat) : Ref := ⟨Ty.adjusted s, addr, scope⟩

/-- Models `From<Box<T>> for Box<dyn Tid<'a>>` (lib.rs 306-312). -/
def fromAnyBox (s : STy) (addr : Nat) : Value := ⟨Ty.adjusted s, addr⟩

/-- Models `<dyn Tid>::downcast_any_ref::<T>` (lib.rs 364-369):
`downcast_ref::<TypeIdAdjuster<T>>` followed by the transparent unwrap. -/
def downcast_any_ref (r : Ref) (T : STy) : Option ARef :=
  (downcast_ref r (Ty.adjusted T)).map fun x => ⟨T, x.addr, x.scope⟩

/-- Models `<dyn Tid>::downcast_any_mut::<T>` (lib.rs 372-377). -/
def downcast_any_mut (r : Ref) (T : STy) : Option ARef :=
  (downcast_mut r (Ty.adjusted T)).map fun x => ⟨T, x.addr, x.scope⟩

/-- Models `<dyn Tid>::downcast_any_box::<T>` (lib.rs 380-385):
`downcast_box::<TypeIdAdjuster<T>>`, the success box transparently
re-cast; the error path returns the original box. -/
def downcast_any_box (h : Value) (T : STy) : Except Value AnyVal :=
  match downcast_box h (Ty.adjusted T) with
  | .ok x => .ok ⟨T, x.addr⟩
  | .error e => .error e

end BetterAny

namespace BetterTypeid

mutual

/-- The `Static` substitute type of a scoped type in better_typeid.  It
uses the same derive crate for generic declarations, but implements
`TidAble` for `&'a T` / `&'a mut T` directly with `Static = &'static T` /
`&'static mut T` (better_typeid lib.rs 391-397).  `TypeIdAdjuster` is
private and not a `Tid` type there; the `adjusted` case is mirrored from
better_any only to keep the function total and is never used. -/
def staticOf : Ty → STy
  | .named n _ => .prim n
  | .app d kinds _ args => .marker (.user d kinds) (staticList args)
  | .ref _ s => .sref s
  | .refMut _ s => .srefMut s
  | .adjusted s => .marker .adjM [s]
  | .pinned s => s

/-- Pointwise `Static` images of a generic argument list. -/
def staticList : List Ty → List STy
  | [] => []
  | t :: ts => staticOf t :: staticList ts

end

/-- Models better_typeid's `adjust_id` (lib.rs 216-220): every tag is
`TypeId::of::<TypeIdAdjuster<T>>()`, shifting the whole scoped universe
away from the host's. -/
def adjust_id (s : STy) : TypeId := typeIdOf (STy.adjuster s)

/-- Models `Tid::self_id` via the blanket impl (better_typeid lib.rs
202-214). -/
def self_id (t : Ty) : TypeId := adjust_id (staticOf t)

/-- Models `T::id()` via the same blanket impl. -/
def type_id (t : Ty) : TypeId := adjust_id (staticOf t)

/-- A borrowed `dyn Tid` handle in better_typeid.  Because the `From<dyn
Any>` conversions transmute the trait object, a handle's `self_id()` call
may dispatch either to a `Tid` impl or to the original `Any::type_id`; the
handle is therefore modelled by what its `self_id()` returns. -/
structure HRef where
  sid : TypeId
  addr : Nat
  scope : Nat
deriving DecidableEq

/-- An owning `dyn Tid` handle (`Box`/`Rc`/`Arc` pointee) in better_typeid. -/
structure Handle where
  sid : TypeId
  addr : Nat
deriving DecidableEq

/-- A handle created directly from a value of scoped type `t`. -/
def mkDirectRef (t : Ty) (addr scope : Nat) : HRef := ⟨self_id t, addr, scope⟩

/-- A handle created directly from an owned value of scoped type `t`. -/
def mkDirect (t : Ty) (addr : Nat) : Handle := ⟨self_id t, addr⟩

/-- Models `TidExt::downcast_ref` (better_typeid lib.rs 128-139):
`if self.self_id() == T::id()`, reinterpret the same reference. -/
def downcast_ref (r : HRef) (T : Ty) : Option Ref :=
  if r.sid == type_id T then some ⟨T, r.addr, r.scope⟩ else none

/-- Models `TidExt::downcast_mut` (better_typeid lib.rs 142-152). -/
def downcast_mut (r : HRef) (T : Ty) : Option Ref :=
  if r.sid == type_id T then some ⟨T, r.addr, r.scope⟩ else none

/-- Models `TidExt::downcast_rc` (better_typeid lib.rs 155-161):
`if T::id() == self.self_id()`, reinterpret, else `Err(self)`. -/
def downcast_rc (h : Handle) (T : Ty) : Except Handle Value :=
  if type_id T == h.sid then .ok ⟨T, h.addr⟩ else .error h

/-- Models `TidExt::downcast_arc` (better_typeid lib.rs 163-169). -/
def downcast_arc (h : Handle) (T : Ty) : Except Handle Value :=
  if type_id T == h.sid then .ok ⟨T, h.addr⟩ else .error h

/-- Models `TidExt::downcast_box` (better_typeid lib.rs 172-178). -/
def downcast_box (h : Handle) (T : Ty) : Except Handle Value :=
  if type_id T == h.sid then .ok ⟨T, h.addr⟩ else .error h

end BetterTypeid

namespace Derive

/-- Models Rust's `char::is_ascii_alphanumeric`: `'0'..='9' | 'A'..='Z' |
'a'..='z'`. -/
def isAsciiAlphanumeric (c : Char) : Bool :=
  (decide ('0' ≤ c) && decide (c ≤ '9')) ||
  (decide ('A' ≤ c) && decide (c ≤ 'Z')) ||
  (decide ('a' ≤ c) && decide (c ≤ 'z'))

/-- Models the marker-struct name computation of `create_impl`
(better_typeid_derive lib.rs 158-164): the declared type's token string is
filtered to its ASCII-alphanumeric characters and wrapped by
`format_ident!` as `__{}_should_never_exist`. -/
def markerName (typeTokens : String) : String :=
  String.mk ("__".data ++ typeTokens.data.filter isAsciiAlphanumeric ++
    "_should_never_exist".data)

end Derive

/-- A generic container declaration `Wrapper<X>` with a single scope-bound
type parameter, as the derive macro registers it: declaration identity `d`,
parameter kinds `[false]` (not pinned), instantiated at lifetime `lt` with
argument `X`. -/
def Wrapper (d : Nat) (lt : Lt) (X : Ty) : Ty := Ty.app d [false] lt [X]

namespace BetterAny

/-- Scope erasure does not change the `Static` images of an argument list. -/
theorem staticList_eraseList (args : List Ty)
    (h : ∀ a ∈ args, staticOf a.erase = staticOf a) :
    staticList (Ty.eraseList args) = staticList args := by
  induction args with
  | nil => simp [Ty.eraseList, staticList]
  | cons x xs ihx =>
    simp only [Ty.eraseList, staticList, List.cons.injEq]
    exact ⟨h x (by simp), ihx fun a ha => h a (by simp [ha])⟩

/-- Scope erasure does not change the `Static` image: the derived tag
depends only on the scope-erased shape, never on the lifetime. -/
theorem staticOf_erase : ∀ t : Ty, staticOf t.erase = staticOf t := by
  intro t
  induction t using Ty.indTy with
  | hnamed n lt => simp [Ty.erase, staticOf]
  | happ d kinds lt args ih => simp [Ty.erase, staticOf, staticList_eraseList args ih]
  | href lt s => simp [Ty.erase, staticOf]
  | hrefMut lt s => simp [Ty.erase, staticOf]
  | hadj s => simp [Ty.erase, staticOf]
  | hpin s => simp [Ty.erase, staticOf]

/-- Pointwise injectivity of the `Static` images over argument lists that
match their declaration's parameter kinds. -/
theorem staticList_inj (kinds : List Bool) :
    ∀ args bs : List Ty,
    (∀ a ∈ args, ∀ u : Ty, a.wf = true → u.wf = true →
        staticOf a = staticOf u → a.erase = u.erase) →
    Ty.wfArgs kinds args = true → Ty.wfArgs kinds bs = true →
    staticList args = staticList bs → Ty.eraseList args = Ty.eraseList bs := by
  induction kinds with
  | nil =>
    intro args bs _ h1 h2 _
    cases args with
    | nil =>
      cases bs with
      | nil => rfl
      | cons b bs2 => simp [Ty.wfArgs] at h2
    | cons a as => simp [Ty.wfArgs] at h1
  | cons k ks ihk =>
    intro args bs ih h1 h2 heq
    cases args with
    | nil => cases k <;> simp [Ty.wfArgs] at h1
    | cons a as =>
      cases bs with
      | nil => cases k <;> cases a <;> simp [Ty.wfArgs] at h2
      | cons b bs2 =>
        cases k with
        | true =>
          cases a with
          | pinned s =>
            cases b with
            | pinned s2 =>
              simp only [Ty.wfArgs] at h1 h2
              simp only [staticList, staticOf, List.cons.injEq] at heq
              simp only [Ty.eraseList, Ty.erase, List.cons.injEq]
              exact ⟨by rw [heq.1],
                ihk as bs2 (fun x hx => ih x (by simp [hx])) h1 h2 heq.2⟩
            | named n l => simp [Ty.wfArgs] at h2
            | app d2 k2 l2 cs => simp [Ty.wfArgs] at h2
            | ref l2 s2 => simp [Ty.wfArgs] at h2
            | refMut l2 s2 => simp [Ty.wfArgs] at h2
            | adjusted s2 => simp [Ty.wfArgs] at h2
          | named n l => simp [Ty.wfArgs] at h1
          | app d2 k2 l2 cs => simp [Ty.wfArgs] at h1
          | ref l2 s2 => simp [Ty.wfArgs] at h1
          | refMut l2 s2 => simp [Ty.wfArgs] at h1
          | adjusted s2 => simp [Ty.wfArgs] at h1
        | false =>
          simp only [Ty.wfArgs, Bool.and_eq_true] at h1 h2
          simp only [staticList, List.cons.injEq] at heq
          simp only [Ty.eraseList, List.cons.injEq]
          exact ⟨ih a (by simp) b h1.1 h2.1 heq.1,
            ihk as bs2 (fun x hx => ih x (by simp [hx])) h1.2 h2.2 heq.2⟩

/-- The core exclusivity lemma: on well-formed scoped types the better_any
`Static` image determines the scope-erased shape. -/
theorem staticOf_inj : ∀ T U : Ty, T.wf = true → U.wf = true →
    staticOf T = staticOf U → T.erase = U.erase := by
  intro T
  induction T using Ty.indTy with
  | hnamed n lt =>
    intro U hT hU h
    cases U with
    | named m l2 => simp_all [staticOf, Ty.erase]
    | app d2 k2 l2 bs => simp [staticOf] at h
    | ref l2 s => simp [staticOf] at h
    | refMut l2 s => simp [staticOf] at h
    | adjusted s => simp [staticOf] at h
    | pinned s => simp [Ty.wf] at hU
  | happ d kinds lt args ih =>
    intro U hT hU h
    cases U with
    | app d2 k2 l2 bs =>
      simp only [staticOf, STy.marker.injEq, MId.user.injEq] at h
      obtain ⟨⟨hd, hk⟩, hl⟩ := h
      subst hd
      subst hk
      simp only [Ty.wf] at hT hU
      simp only [Ty.erase]
      exact congrArg (Ty.app d kinds Lt.static) (staticList_inj kinds args bs ih hT hU hl)
    | named m l2 => simp [staticOf] at h
    | ref l2 s => simp [staticOf] at h
    | refMut l2 s => simp [staticOf] at h
    | adjusted s => simp [staticOf] at h
    | pinned s => simp [Ty.wf] at hU
  | href lt s =>
    intro U hT hU h
    cases U with
    | ref l2 s2 => simp_all [staticOf, Ty.erase]
    | named m l2 => simp [staticOf] at h
    | app d2 k2 l2 bs => simp [staticOf] at h
    | refMut l2 s2 => simp [staticOf] at h
    | adjusted s2 => simp [staticOf] at h
    | pinned s2 => simp [Ty.wf] at hU
  | hrefMut lt s =>
    intro U hT hU h
    cases U with
    | refMut l2 s2 => simp_all [staticOf, Ty.erase]
    | named m l2 => simp [staticOf] at h
    | app d2 k2 l2 bs => simp [staticOf] at h
    | ref l2 s2 => simp [staticOf] at h
    | adjusted s2 => simp [staticOf] at h
    | pinned s2 => simp [Ty.wf] at hU
  | hadj s =>
    intro U hT hU h
    cases U with
    | adjusted s2 => simp_all [staticOf, Ty.erase]
    | named m l2 => simp [staticOf] at h
    | app d2 k2 l2 bs => simp [staticOf] at h
    | ref l2 s2 => simp [staticOf] at h
    | refMut l2 s2 => simp [staticOf] at h
    | pinned s2 => simp [Ty.wf] at hU
  | hpin s =>
    intro U hT hU h
    simp [Ty.wf] at hT

end BetterAny

/-- A marker type applied to a static type is never that type itself
(immediate from sizes). -/
theorem STy.marker_adjM_ne (s : STy) : STy.marker .adjM [s] ≠ s := by
  intro h
  have h2 := congrArg sizeOf h
  simp at h2
  omega

/-- Wrapping a static type in `TypeIdAdjuster` never yields the type
itself (immediate from sizes). -/
theorem STy.adjuster_ne (s : STy) : STy.adjuster s ≠ s := by
  intro h
  have h2 := congrArg sizeOf h
  simp at h2

/-- C1: Tag exclusivity.  For any two well-formed scoped types, the
per-value tags (`self_id`, computed by the blanket `Tid` impl from the
derived `Static` substitute) are equal iff the two types are the same up
to substitution of the validity-scope parameter (equal scope-erased
shapes); and two instantiations of nominally distinct generic
declarations never share a tag, however similar their structure, because
each declaration's marker struct is fresh. -/
theorem C1_tag_exclusivity :
    (∀ T U : Ty, T.wf = true → U.wf = true →
      (BetterAny.self_id T = BetterAny.self_id U ↔ T.erase = U.erase)) ∧
    (∀ d1 k1 l1 a1 d2 k2 l2 a2, d1 ≠ d2 →
      BetterAny.type_id (Ty.app d1 k1 l1 a1) ≠ BetterAny.type_id (Ty.app d2 k2 l2 a2)) := by
  constructor
  · intro T U hT hU
    constructor
    · intro h
      exact BetterAny.staticOf_inj T U hT hU h
    · intro h
      show BetterAny.staticOf T = BetterAny.staticOf U
      rw [← BetterAny.staticOf_erase T, ← BetterAny.staticOf_erase U, h]
  · intro d1 k1 l1 a1 d2 k2 l2 a2 hne h
    simp [BetterAny.type_id, BetterAny.adjust_id, typeIdOf, BetterAny.staticOf] at h
    exact hne h.1.1

/-- C1 witness: the exclusivity theorem applied at concrete inputs — the
same nominal type over two different scopes, and two nominally distinct
declarations with identical argument structure. -/
theorem C1_tag_exclusivity_witness :
    (BetterAny.self_id (Ty.named 0 (Lt.scope 1)) = BetterAny.self_id (Ty.named 0 (Lt.scope 2)) ↔
      (Ty.named 0 (Lt.scope 1)).erase = (Ty.named 0 (Lt.scope 2)).erase) ∧
    BetterAny.type_id (Ty.app 0 [false] Lt.static [Ty.named 7 Lt.static]) ≠
      BetterAny.type_id (Ty.app 1 [false] Lt.static [Ty.named 7 Lt.static]) :=
  ⟨C1_tag_exclusivity.1 _ _ (by decide) (by decide),
   C1_tag_exclusivity.2 0 [false] Lt.static [Ty.named 7 Lt.static] 1 [false] Lt.static
     [Ty.named 7 Lt.static] (by decide)⟩

/-- C2: Lifetime-independence and congruence of derived tags: the tags of
`Wrapper<A>` and `Wrapper<B>` are equal iff the tags of `A` and `B` are
(hence unequal whenever `A` and `B` have unequal tags), and concretely
`Wrapper<&'s1 i32>` and `Wrapper<&'s2 i32>` have equal tags for any two
scopes `s1`, `s2`: the derived `Static` substitute depends only on the
parameter's `Static` image, never on the lifetime. -/
theorem C2_wrapper_congruence :
    (∀ d lt1 lt2 A B,
      BetterAny.type_id (Wrapper d lt1 A) = BetterAny.type_id (Wrapper d lt2 B) ↔
        BetterAny.type_id A = BetterAny.type_id B) ∧
    (∀ d s1 s2,
      BetterAny.type_id (Wrapper d (Lt.scope s1) (Ty.ref (Lt.scope s1) (STy.prim 0))) =
        BetterAny.type_id (Wrapper d (Lt.scope s2) (Ty.ref (Lt.scope s2) (STy.prim 0)))) := by
  constructor
  · intro d lt1 lt2 A B
    simp [Wrapper, BetterAny.type_id, BetterAny.adjust_id, typeIdOf, BetterAny.staticOf,
      BetterAny.staticList]
  · intro d s1 s2
    simp [Wrapper, BetterAny.type_id, BetterAny.adjust_id, typeIdOf, BetterAny.staticOf,
      BetterAny.staticList]

/-- C3: Downcast success condition: `is::<T>()` is true iff
`self_id() == T::id()`; `downcast_ref::<T>` returns the same referent
(address and borrow scope unchanged) reinterpreted at type `T` exactly
when `is::<T>()` holds and `None` otherwise, and `downcast_mut` behaves
identically; likewise in the better_typeid variant, whose check compares
the handle's `self_id()` with `T::id()`. -/
theorem C3_downcast_success_condition :
    (∀ r : Ref, ∀ T : Ty,
      (BetterAny.is r.ty T = true ↔ BetterAny.self_id r.ty = BetterAny.type_id T) ∧
      (BetterAny.is r.ty T = true →
        BetterAny.downcast_ref r T = some ⟨T, r.addr, r.scope⟩ ∧
        BetterAny.downcast_mut r T = some ⟨T, r.addr, r.scope⟩) ∧
      (BetterAny.is r.ty T = false →
        BetterAny.downcast_ref r T = none ∧ BetterAny.downcast_mut r T = none)) ∧
    (∀ h : BetterTypeid.HRef, ∀ T : Ty,
      (h.sid = BetterTypeid.type_id T →
        BetterTypeid.downcast_ref h T = some ⟨T, h.addr, h.scope⟩ ∧
        BetterTypeid.downcast_mut h T = some ⟨T, h.addr, h.scope⟩) ∧
      (h.sid ≠ BetterTypeid.type_id T →
        BetterTypeid.downcast_ref h T = none ∧ BetterTypeid.downcast_mut h T = none)) := by
  constructor
  · intro r T
    refine ⟨?_, fun h => ?_, fun h => ?_⟩
    · simp [BetterAny.is]
    · simp [BetterAny.downcast_ref, BetterAny.downcast_mut, h]
    · simp [BetterAny.downcast_ref, BetterAny.downcast_mut, h]
  · intro h T
    refine ⟨fun hh => ?_, fun hh => ?_⟩
    · simp [BetterTypeid.downcast_ref, BetterTypeid.downcast_mut, hh]
    · simp [BetterTypeid.downcast_ref, BetterTypeid.downcast_mut, hh]

/-- C3 witness: the characterization applied at a concrete matching input
and a concrete mismatching input, in both variants. -/
theorem C3_downcast_success_condition_witness :
    (BetterAny.downcast_ref ⟨Ty.named 0 Lt.static, 5, 3⟩ (Ty.named 0 Lt.static) =
        some ⟨Ty.named 0 Lt.static, 5, 3⟩ ∧
      BetterAny.downcast_mut ⟨Ty.named 0 Lt.static, 5, 3⟩ (Ty.named 0 Lt.static) =
        some ⟨Ty.named 0 Lt.static, 5, 3⟩) ∧
    (BetterAny.downcast_ref ⟨Ty.named 0 Lt.static, 5, 3⟩ (Ty.named 1 Lt.static) = none ∧
      BetterAny.downcast_mut ⟨Ty.named 0 Lt.static, 5, 3⟩ (Ty.named 1 Lt.static) = none) ∧
    (BetterTypeid.downcast_ref (BetterTypeid.mkDirectRef (Ty.named 0 Lt.static) 5 3)
        (Ty.named 1 Lt.static) = none) :=
  ⟨(C3_downcast_success_condition.1 ⟨Ty.named 0 Lt.static, 5, 3⟩
      (Ty.named 0 Lt.static)).2.1 (by decide),
   (C3_downcast_success_condition.1 ⟨Ty.named 0 Lt.static, 5, 3⟩
      (Ty.named 1 Lt.static)).2.2 (by decide),
   ((C3_downcast_success_condition.2 (BetterTypeid.mkDirectRef (Ty.named 0 Lt.static) 5 3)
      (Ty.named 1 Lt.static)).2 (by decide)).1⟩

/-- C4: Reflexivity: the per-value tag and the per-type tag agree for
every type (both are `adjust_id::<Self::Static>()`), hence `is::<Self>` on
a value of type `Self` is always true and every downcast whose target is
exactly the value's own type succeeds. -/
theorem C4_reflexivity :
    (∀ t : Ty, BetterAny.self_id t = BetterAny.type_id t) ∧
    (∀ t : Ty, BetterAny.is t t = true) ∧
    (∀ r : Ref, BetterAny.downcast_ref r r.ty = some ⟨r.ty, r.addr, r.scope⟩ ∧
      BetterAny.downcast_mut r r.ty = some ⟨r.ty, r.addr, r.scope⟩) ∧
    (∀ h : Value, BetterAny.downcast_box h h.ty = .ok ⟨h.ty, h.addr⟩ ∧
      BetterAny.downcast_rc h h.ty = .ok ⟨h.ty, h.addr⟩ ∧
      BetterAny.downcast_arc h h.ty = .ok ⟨h.ty, h.addr⟩ ∧
      BetterAny.downcast_move h h.ty = some ⟨h.ty, h.addr⟩) := by
  refine ⟨fun t => rfl, fun t => ?_, fun r => ?_, fun h => ?_⟩
  · simp [BetterAny.is, BetterAny.self_id, BetterAny.type_id]
  · constructor <;> simp [BetterAny.downcast_ref, BetterAny.downcast_mut, BetterAny.is,
      BetterAny.self_id, BetterAny.type_id]
  · refine ⟨?_, ?_, ?_, ?_⟩ <;> simp [BetterAny.downcast_box, BetterAny.downcast_rc,
      BetterAny.downcast_arc, BetterAny.downcast_move, BetterAny.is,
      BetterAny.self_id, BetterAny.type_id]

/-- C5: Ownership round-trip for `downcast_box` / `downcast_rc` /
`downcast_arc`: on a wrapper whose pointee is truly `T` the downcast
returns `Ok` with the same pointee address; on a tag mismatch it returns
`Err` carrying exactly the original wrapper (same dynamic type, same
address), with nothing else changed; likewise in the better_typeid
variant. -/
theorem C5_ownership_roundtrip :
    (∀ h : Value, ∀ T : Ty,
      (h.ty = T →
        BetterAny.downcast_box h T = .ok ⟨T, h.addr⟩ ∧
        BetterAny.downcast_rc h T = .ok ⟨T, h.addr⟩ ∧
        BetterAny.downcast_arc h T = .ok ⟨T, h.addr⟩) ∧
      (BetterAny.is h.ty T = false →
        BetterAny.downcast_box h T = .error h ∧
        BetterAny.downcast_rc h T = .error h ∧
        BetterAny.downcast_arc h T = .error h)) ∧
    (∀ hdl : BetterTypeid.Handle, ∀ T : Ty,
      (BetterTypeid.type_id T = hdl.sid →
        BetterTypeid.downcast_box hdl T = .ok ⟨T, hdl.addr⟩ ∧
        BetterTypeid.downcast_rc hdl T = .ok ⟨T, hdl.addr⟩ ∧
        BetterTypeid.downcast_arc hdl T = .ok ⟨T, hdl.addr⟩) ∧
      (BetterTypeid.type_id T ≠ hdl.sid →
        BetterTypeid.downcast_box hdl T = .error hdl ∧
        BetterTypeid.downcast_rc hdl T = .error hdl ∧
        BetterTypeid.downcast_arc hdl T = .error hdl)) := by
  constructor
  · intro h T
    refine ⟨fun hT => ?_, fun hT => ?_⟩
    · subst hT
      refine ⟨?_, ?_, ?_⟩ <;> simp [BetterAny.downcast_box, BetterAny.downcast_rc,
        BetterAny.downcast_arc, BetterAny.is, BetterAny.self_id, BetterAny.type_id]
    · refine ⟨?_, ?_, ?_⟩ <;> simp [BetterAny.downcast_box, BetterAny.downcast_rc,
        BetterAny.downcast_arc, hT]
  · intro hdl T
    refine ⟨fun hT => ?_, fun hT => ?_⟩
    · refine ⟨?_, ?_, ?_⟩ <;> simp [BetterTypeid.downcast_box, BetterTypeid.downcast_rc,
        BetterTypeid.downcast_arc, hT]
    · refine ⟨?_, ?_, ?_⟩ <;> simp [BetterTypeid.downcast_box, BetterTypeid.downcast_rc,
        BetterTypeid.downcast_arc, hT]

/-- C5 witness: the round-trip applied at a concrete true-`T` wrapper and
a concrete mismatched wrapper. -/
theorem C5_ownership_roundtrip_witness :
    (BetterAny.downcast_box ⟨Ty.named 0 Lt.static, 9⟩ (Ty.named 0 Lt.static) =
        .ok ⟨Ty.named 0 Lt.static, 9⟩ ∧
      BetterAny.downcast_rc ⟨Ty.named 0 Lt.static, 9⟩ (Ty.named 0 Lt.static) =
        .ok ⟨Ty.named 0 Lt.static, 9⟩ ∧
      BetterAny.downcast_arc ⟨Ty.named 0 Lt.static, 9⟩ (Ty.named 0 Lt.static) =
        .ok ⟨Ty.named 0 Lt.static, 9⟩) ∧
    (BetterAny.downcast_box ⟨Ty.named 0 Lt.static, 9⟩ (Ty.named 1 Lt.static) =
        .error ⟨Ty.named 0 Lt.static, 9⟩ ∧
      BetterAny.downcast_rc ⟨Ty.named 0 Lt.static, 9⟩ (Ty.named 1 Lt.static) =
        .error ⟨Ty.named 0 Lt.static, 9⟩ ∧
      BetterAny.downcast_arc ⟨Ty.named 0 Lt.static, 9⟩ (Ty.named 1 Lt.static) =
        .error ⟨Ty.named 0 Lt.static, 9⟩) :=
  ⟨(C5_ownership_roundtrip.1 ⟨Ty.named 0 Lt.static, 9⟩ (Ty.named 0 Lt.static)).1 rfl,
   (C5_ownership_roundtrip.1 ⟨Ty.named 0 Lt.static, 9⟩ (Ty.named 1 Lt.static)).2 (by decide)⟩

/-- C6 counterexample: a failed by-value `downcast_move` does not give the
caller the original input back: `TidExt::downcast_move` (and
`AnyExt::downcast_move`) return `None` on a tag mismatch — the returned
`Option<T>` carries nothing, and the consumed input is dropped by the
callee rather than handed back (unlike the `Box`/`Rc`/`Arc` forms, whose
failure returns the original wrapper in `Err`). -/
theorem C6_failure_counterexample :
    BetterAny.downcast_move ⟨Ty.named 0 Lt.static, 7⟩ (Ty.named 1 Lt.static) = none ∧
    BetterAny.AnyExt.downcast_move ⟨STy.prim 0, 7⟩ (STy.prim 1) = none := by
  constructor <;> rfl

/-- C6 (amended): every ownership-transferring downcast fails without
leaking or double-freeing, but only the wrapper forms return the original
handle: `downcast_box`/`downcast_rc`/`downcast_arc` return `Err` carrying
exactly the original wrapper on a tag mismatch, while the by-value
`downcast_move` forms return `None` on failure, dropping the consumed
input exactly once instead of returning it. -/
theorem C6_failure_paths :
    (∀ h : Value, ∀ T : Ty, BetterAny.is h.ty T = false →
      BetterAny.downcast_box h T = .error h ∧
      BetterAny.downcast_rc h T = .error h ∧
      BetterAny.downcast_arc h T = .error h ∧
      BetterAny.downcast_move h T = none) ∧
    (∀ x : AnyVal, ∀ T : STy, x.sty ≠ T →
      BetterAny.AnyExt.downcast_move x T = none) := by
  constructor
  · intro h T hT
    refine ⟨?_, ?_, ?_, ?_⟩ <;> simp [BetterAny.downcast_box, BetterAny.downcast_rc,
      BetterAny.downcast_arc, BetterAny.downcast_move, hT]
  · intro x T hT
    simp [BetterAny.AnyExt.downcast_move, typeIdOf, hT]

/-- C6 witness: the amended failure-path behaviour at concrete mismatched
inputs. -/
theorem C6_failure_paths_witness :
    (BetterAny.downcast_box ⟨Ty.named 0 Lt.static, 7⟩ (Ty.named 1 Lt.static) =
        .error ⟨Ty.named 0 Lt.static, 7⟩ ∧
      BetterAny.downcast_rc ⟨Ty.named 0 Lt.static, 7⟩ (Ty.named 1 Lt.static) =
        .error ⟨Ty.named 0 Lt.static, 7⟩ ∧
      BetterAny.downcast_arc ⟨Ty.named 0 Lt.static, 7⟩ (Ty.named 1 Lt.static) =
        .error ⟨Ty.named 0 Lt.static, 7⟩ ∧
      BetterAny.downcast_move ⟨Ty.named 0 Lt.static, 7⟩ (Ty.named 1 Lt.static) = none) ∧
    BetterAny.AnyExt.downcast_move (⟨STy.prim 0, 7⟩ : AnyVal) (STy.prim 1) = none :=
  ⟨C6_failure_paths.1 ⟨Ty.named 0 Lt.static, 7⟩ (Ty.named 1 Lt.static) (by decide),
   C6_failure_paths.2 ⟨STy.prim 0, 7⟩ (STy.prim 1) (by decide)⟩

/-- C7: Bridge separation: a handle built through the host-RTTI bridge
(the `From` impls, which wrap the value in `TypeIdAdjuster`) fails the
direct `downcast_ref::<T>` and succeeds through the bridge-aware
`downcast_any_ref::<T>`; conversely a handle created directly from `T as
dyn Tid` succeeds through `downcast_ref::<T>` and fails through
`downcast_any_ref::<T>`; the mutable and boxed forms behave alike. -/
theorem C7_bridge_separation :
    ∀ n addr scope : Nat,
      BetterAny.downcast_ref (BetterAny.fromAnyRef (STy.prim n) addr scope)
          (Ty.named n Lt.static) = none ∧
      BetterAny.downcast_any_ref (BetterAny.fromAnyRef (STy.prim n) addr scope)
          (STy.prim n) = some ⟨STy.prim n, addr, scope⟩ ∧
      BetterAny.downcast_ref (⟨Ty.named n Lt.static, addr, scope⟩ : Ref)
          (Ty.named n Lt.static) = some ⟨Ty.named n Lt.static, addr, scope⟩ ∧
      BetterAny.downcast_any_ref (⟨Ty.named n Lt.static, addr, scope⟩ : Ref)
          (STy.prim n) = none ∧
      BetterAny.downcast_any_mut (BetterAny.fromAnyRef (STy.prim n) addr scope)
          (STy.prim n) = some ⟨STy.prim n, addr, scope⟩ ∧
      BetterAny.downcast_mut (⟨Ty.named n Lt.static, addr, scope⟩ : Ref)
          (Ty.named n Lt.static) = some ⟨Ty.named n Lt.static, addr, scope⟩ ∧
      BetterAny.downcast_any_box (BetterAny.fromAnyBox (STy.prim n) addr)
          (STy.prim n) = .ok ⟨STy.prim n, addr⟩ ∧
      BetterAny.downcast_box (BetterAny.fromAnyBox (STy.prim n) addr)
          (Ty.named n Lt.static) = .error (BetterAny.fromAnyBox (STy.prim n) addr) := by
  intro n addr scope
  refine ⟨?_, ?_, ?_, ?_, ?_, ?_, ?_, ?_⟩ <;>
    simp [BetterAny.downcast_ref, BetterAny.downcast_mut, BetterAny.downcast_box,
      BetterAny.downcast_any_ref, BetterAny.downcast_any_mut, BetterAny.downcast_any_box,
      BetterAny.fromAnyRef, BetterAny.fromAnyBox, BetterAny.is, BetterAny.self_id,
      BetterAny.type_id, BetterAny.adjust_id, typeIdOf, BetterAny.staticOf]

/-- C8: Scope preservation: a successful `downcast_ref`/`downcast_mut`
returns a reference whose validity scope (region index) and address are
exactly the input reference's — the scope is propagated unchanged, never
widened.  (The compile-time rejection of retaining the result past the
input's scope is represented in this embedding by the region-index
discipline: the result carries the same region index as the input.) -/
theorem C8_scope_preservation :
    ∀ (r : Ref) (T : Ty) (r2 : Ref),
      (BetterAny.downcast_ref r T = some r2 → r2.scope = r.scope ∧ r2.addr = r.addr) ∧
      (BetterAny.downcast_mut r T = some r2 → r2.scope = r.scope ∧ r2.addr = r.addr) := by
  intro r T r2
  constructor
  · intro h
    simp only [BetterAny.downcast_ref] at h
    split at h
    · injection h with h2
      subst h2
      exact ⟨rfl, rfl⟩
    · simp at h
  · intro h
    simp only [BetterAny.downcast_mut] at h
    split at h
    · injection h with h2
      subst h2
      exact ⟨rfl, rfl⟩
    · simp at h

/-- C8 witness: scope and address preservation at a concrete successful
downcast. -/
theorem C8_scope_preservation_witness :
    ((⟨Ty.named 0 Lt.static, 5, 3⟩ : Ref).scope = (⟨Ty.named 0 Lt.static, 5, 3⟩ : Ref).scope ∧
      (⟨Ty.named 0 Lt.static, 5, 3⟩ : Ref).addr = (⟨Ty.named 0 Lt.static, 5, 3⟩ : Ref).addr) ∧
    ((⟨Ty.named 0 Lt.static, 5, 3⟩ : Ref).scope = (⟨Ty.named 0 Lt.static, 5, 3⟩ : Ref).scope ∧
      (⟨Ty.named 0 Lt.static, 5, 3⟩ : Ref).addr = (⟨Ty.named 0 Lt.static, 5, 3⟩ : Ref).addr) :=
  ⟨(C8_scope_preservation ⟨Ty.named 0 Lt.static, 5, 3⟩ (Ty.named 0 Lt.static)
      ⟨Ty.named 0 Lt.static, 5, 3⟩).1 (by decide),
   (C8_scope_preservation ⟨Ty.named 0 Lt.static, 5, 3⟩ (Ty.named 0 Lt.static)
      ⟨Ty.named 0 Lt.static, 5, 3⟩).2 (by decide)⟩

/-- C9 counterexample: the marker-name computation is not injective on
declarations: the two distinct generic declarations `Sa<B>` and `S<aB>`
(distinct token strings) receive the same marker-struct name, because the
ASCII-alphanumeric filter discards the separators. -/
theorem C9_marker_name_counterexample :
    Derive.markerName "Sa < B >" = Derive.markerName "S < aB >" ∧
    "Sa < B >" ≠ "S < aB >" := by
  constructor
  · decide
  · decide

/-- C9 (amended): the marker-struct name emitted for a declaration is a
deterministic function of the declared type's token string — `__` ++ the
tokens filtered to ASCII-alphanumeric characters ++ `_should_never_exist`
— and two declarations receive the same marker name iff their filtered
token strings agree; the filter is lossy, so nominally distinct
declarations can receive the same name (in Rust such a collision is a
duplicate-definition compile error in one module, or two distinct types in
different modules — not a tag collision). -/
theorem C9_marker_name :
    ∀ s t : String, Derive.markerName s = Derive.markerName t ↔
      s.data.filter Derive.isAsciiAlphanumeric = t.data.filter Derive.isAsciiAlphanumeric := by
  intro s t
  constructor
  · intro h
    have h2 : ("__".data ++ s.data.filter Derive.isAsciiAlphanumeric) ++
          "_should_never_exist".data =
        ("__".data ++ t.data.filter Derive.isAsciiAlphanumeric) ++
          "_should_never_exist".data := congrArg String.data h
    exact List.append_cancel_left (List.append_cancel_right h2)
  · intro h
    simp [Derive.markerName, h]

/-- C10: In the better_any variant the tag adjustment is the identity on
`TypeId` (`adjust_id::<T>() = TypeId::of::<T>()`), so a non-generic type
registered directly with `tid!(S)` (whose `Static` is `S` itself) has
`Tid::id` equal to the host `TypeId::of::<S>`; the scoped/host separation
comes only from the `From` bridge wrapping values in `TypeIdAdjuster`
(whose tag differs from the bare host tag) — unlike better_typeid, whose
`adjust_id` shifts every tag by wrapping the `Static` in
`TypeIdAdjuster`, so it never equals the host tag. -/
theorem C10_adjust_id_identity :
    (∀ s : STy, BetterAny.adjust_id s = typeIdOf s) ∧
    (∀ n : Nat, ∀ lt : Lt, BetterAny.type_id (Ty.named n lt) = typeIdOf (STy.prim n)) ∧
    (∀ s : STy, ∀ addr scope : Nat,
      (BetterAny.fromAnyRef s addr scope).ty = Ty.adjusted s ∧
      BetterAny.self_id (Ty.adjusted s) ≠ typeIdOf s) ∧
    (∀ s : STy, BetterTypeid.adjust_id s ≠ typeIdOf s) := by
  refine ⟨fun s => rfl, fun n lt => rfl, fun s addr scope => ⟨rfl, ?_⟩, fun s => ?_⟩
  · show BetterAny.staticOf (Ty.adjusted s) ≠ s
    simp only [BetterAny.staticOf]
    exact STy.marker_adjM_ne s
  · show STy.adjuster s ≠ s
    exact STy.adjuster_ne s
